import Mathlib

/-
Verification of the skylight keyboard/text-input state machine.

Shallow embedding of:
  src/input/keyboard/keyboard.rs  (Keyboard, InputBuffer, process_evt, drain_input, reset)
  src/input/keyboard/event.rs     (KeystrokeFlags and its bitfield decode)
The KeyCode enumeration lives in src/input/keyboard/codes.rs, which is not among the
provided sources; it is modelled from the spec where noted.

Conventions: Rust u16/u32 values are Nat with explicit bounds where they matter;
Rust char is Lean Char (both are exactly the Unicode scalar values); VecDeque of
char is List Char with push_back = append, pop_back = dropLast, pop_front = tail.
-/

namespace Skylight

/-- Capacity bound of the keyboard input queue, INPUT_QUEUE_CAPACITY in keyboard.rs. -/
def INPUT_QUEUE_CAPACITY : Nat := 32

/-- The backspace character constant BACKSPACE in keyboard.rs. -/
def BACKSPACE : Char := Char.ofNat 0x08

/-- The Unicode replacement character, std::char::REPLACEMENT_CHARACTER. -/
def REPLACEMENT_CHARACTER : Char := Char.ofNat 0xFFFD

/-! ## KeystrokeFlags (event.rs) -/

/-- Struct representation of the Win32 keystroke message flags, as in event.rs. -/
structure KeystrokeFlags where
  is_key_release : Bool
  was_previous_state_down : Bool
  is_alt_pressed : Bool
  is_extended_key : Bool
  scan_code : Nat
  repeat_count : Nat
deriving DecidableEq

/-- Reads an n-bit unsigned field from the MSB-first bit stream of the big-endian
byte serialization of a 32-bit word, starting at stream position pos. Stream
position i corresponds to bit 31 - i of the word; fields accumulate MSB-first.
This models the sequential bit cursor of the deku decoder used by KeystrokeFlags
in event.rs. -/
def readBits (v pos : Nat) : Nat → Nat
  | 0 => 0
  | n + 1 => 2 * readBits v pos n + (if v.testBit (31 - (pos + n)) then 1 else 0)

/-- Decode KeystrokeFlags from a raw 32-bit value, following the deku field order
declared in event.rs: one bit each for release, previous-state-down and alt at
stream positions 0, 1, 2, then 4 padding bits, one bit for extended key, 8 bits
of scan code, and 16 bits of repeat count. -/
def KeystrokeFlags.from_raw (v : Nat) : KeystrokeFlags :=
  { is_key_release := readBits v 0 1 == 1
    was_previous_state_down := readBits v 1 1 == 1
    is_alt_pressed := readBits v 2 1 == 1
    is_extended_key := readBits v 7 1 == 1
    scan_code := readBits v 8 8
    repeat_count := readBits v 16 16 }

/-- Fixed flags value used where a concrete KeystrokeFlags is needed; the Input
processing path of process_evt never inspects the flags. -/
def flags0 : KeystrokeFlags := KeystrokeFlags.from_raw 0

/-! ## KeyCode (codes.rs, not in the provided sources) -/

/-- Modelled from the spec: the KeyCode enumeration of src/input/keyboard/codes.rs is
missing from the sources. Per the spec it is a closed enumeration translated from
platform virtual-key numbers; keyboard.rs indexes the 255-slot pressed bitmap by
the numeric value of a key, so a key is modelled as its numeric value, bounded by
the bitmap capacity. Distinct keys have distinct virtual-key values. -/
structure KeyCode where
  value : Nat
  isLt : value < 255

/-! ## KeyEvent (event.rs) -/

/-- A representation of a Win32 virtual key event, as in event.rs. The wchar of an
Input event is one UTF-16 code unit (a u16). -/
inductive KeyEvent where
  | KeyDown (key_code : KeyCode) (flags : KeystrokeFlags)
  | KeyUp (key_code : KeyCode) (flags : KeystrokeFlags)
  | Input (wchar : Nat) (flags : KeystrokeFlags)

/-- True for the key-transition variants, false for text input. -/
def is_key_transition : KeyEvent → Bool
  | KeyEvent.KeyDown _ _ => true
  | KeyEvent.KeyUp _ _ => true
  | KeyEvent.Input _ _ => false

/-! ## UTF-16 decoding (std char::decode_utf16 as used by keyboard.rs) -/

/-- High surrogate range U+D800 to U+DBFF. -/
def is_high_surrogate (u : Nat) : Bool := 0xD800 ≤ u && u ≤ 0xDBFF

/-- Low surrogate range U+DC00 to U+DFFF. -/
def is_low_surrogate (u : Nat) : Bool := 0xDC00 ≤ u && u ≤ 0xDFFF

/-- The scalar value encoded by a high/low surrogate pair. -/
def combine_surrogates (hi lo : Nat) : Char :=
  Char.ofNat (0x10000 + (hi - 0xD800) * 0x400 + (lo - 0xDC00))

/-- The std char::decode_utf16 iterator over a list of u16 code units: a non
surrogate unit decodes alone; a high surrogate followed by a low surrogate
decodes to the combined scalar; a high surrogate followed by anything else
yields an unpaired-surrogate error without consuming the follower; a leading
low surrogate or a trailing high surrogate yields an unpaired-surrogate error. -/
def decode_utf16 : List Nat → List (Except Nat Char)
  | [] => []
  | [u] =>
    if is_high_surrogate u || is_low_surrogate u then
      [Except.error u]
    else
      [Except.ok (Char.ofNat u)]
  | u :: v :: rest =>
    if is_high_surrogate u then
      if is_low_surrogate v then
        Except.ok (combine_surrogates u v) :: decode_utf16 rest
      else
        Except.error u :: decode_utf16 (v :: rest)
    else if is_low_surrogate u then
      Except.error u :: decode_utf16 (v :: rest)
    else
      Except.ok (Char.ofNat u) :: decode_utf16 (v :: rest)

/-! ## Rust char classification (char::is_control, char::is_whitespace) -/

/-- Rust char::is_control: the Unicode Cc category, U+0000 to U+001F and U+007F
to U+009F. -/
def rust_is_control (c : Char) : Bool :=
  c.toNat ≤ 0x1F || (0x7F ≤ c.toNat && c.toNat ≤ 0x9F)

/-- Rust char::is_whitespace: the Unicode White_Space property. -/
def rust_is_whitespace (c : Char) : Bool :=
  c.toNat == 0x09 || c.toNat == 0x0A || c.toNat == 0x0B || c.toNat == 0x0C ||
  c.toNat == 0x0D || c.toNat == 0x20 || c.toNat == 0x85 || c.toNat == 0xA0 ||
  c.toNat == 0x1680 || (0x2000 ≤ c.toNat && c.toNat ≤ 0x200A) ||
  c.toNat == 0x2028 || c.toNat == 0x2029 || c.toNat == 0x202F ||
  c.toNat == 0x205F || c.toNat == 0x3000

/-- A character that process_char_input appends to the queue: everything except
control characters that are not whitespace (backspace is such a control
character, but it is special-cased before this test). -/
def pushable (c : Char) : Bool :=
  !(rust_is_control c && !rust_is_whitespace c)

/-! ## Keyboard (keyboard.rs) -/

/-- The central object which tracks and manages keyboard state and text input.
The pressed bitfield of keyboard.rs is modelled as its indicator function. -/
structure Keyboard where
  pressed : Nat → Bool
  input_queue : List Char
  n_backspaces : Nat
  pending_surrogate : Option Nat

/-- Keyboard::new. -/
def Keyboard.new : Keyboard :=
  { pressed := fun _ => false
    input_queue := []
    n_backspaces := 0
    pending_surrogate := none }

/-- Pointwise update of the pressed bitmap at one index. -/
def set_pressed (p : Nat → Bool) (i : Nat) (b : Bool) : Nat → Bool :=
  fun j => if j = i then b else p j

/-- One iteration body of the character loop in Keyboard::process_char_input:
backspace pops the queue tail or, when the queue is empty, increments the
backspace counter; other non-whitespace control characters are dropped; all
remaining characters are appended to the queue tail. -/
def apply_char (k : Keyboard) (c : Char) : Keyboard :=
  if c = BACKSPACE then
    if k.input_queue.isEmpty then
      { k with n_backspaces := k.n_backspaces + 1 }
    else
      { k with input_queue := k.input_queue.dropLast }
  else if rust_is_control c && !rust_is_whitespace c then
    k
  else
    { k with input_queue := k.input_queue ++ [c] }

/-- The trim loop at the end of Keyboard::process_char_input: while the queue
length has reached INPUT_QUEUE_CAPACITY, drop the front element. Each recursive
step is one loop iteration popping the queue front. -/
def trim : List Char → List Char
  | [] => []
  | c :: rest =>
    if INPUT_QUEUE_CAPACITY ≤ (c :: rest).length then trim rest else c :: rest

/-- Keyboard::process_char_input: apply each resolved character in order, then
run the trim loop on the queue. -/
def process_char_input (k : Keyboard) (cs : List Char) : Keyboard :=
  let k2 := cs.foldl apply_char k
  { k2 with input_queue := trim k2.input_queue }

/-- Keyboard::process_evt: the core transition function of keyboard.rs.
KeyDown sets the pressed bit unless the event is an auto repeat; KeyUp clears
the bit; Input resolves UTF-16, holding an unpaired surrogate as pending and
otherwise feeding the decoded characters (with failures replaced by the
replacement character) into process_char_input. The empty-decode branch of the
inner match is unreachable: decode_utf16 of a one-element list is never empty
(the source expresses this with an expect). -/
def process_evt (k : Keyboard) (evt : KeyEvent) : Keyboard :=
  match evt with
  | KeyEvent.KeyDown key_code flags =>
    if !flags.was_previous_state_down then
      { k with pressed := set_pressed k.pressed key_code.value true }
    else
      k
  | KeyEvent.KeyUp key_code _ =>
    { k with pressed := set_pressed k.pressed key_code.value false }
  | KeyEvent.Input wchar _ =>
    match k.pending_surrogate with
    | some hi =>
      process_char_input { k with pending_surrogate := none }
        ((decode_utf16 [hi, wchar]).map fun r =>
          match r with
          | Except.ok c => c
          | Except.error _ => REPLACEMENT_CHARACTER)
    | none =>
      match decode_utf16 [wchar] with
      | Except.error err :: _ => { k with pending_surrogate := some err }
      | Except.ok ch :: _ => process_char_input k [ch]
      | [] => k

/-- Keyboard::is_key_pressed. -/
def is_key_pressed (k : Keyboard) (key : KeyCode) : Bool :=
  k.pressed key.value

/-- Keyboard::drain_input: returns the pending backspace count and the queued
characters in arrival order, leaving the counter zeroed and the queue empty.
The InputBuffer of keyboard.rs is modelled as the returned pair. -/
def drain_input (k : Keyboard) : (Nat × List Char) × Keyboard :=
  ((k.n_backspaces, k.input_queue), { k with n_backspaces := 0, input_queue := [] })

/-- Keyboard::reset: clears the queue, the pending surrogate and the pressed
bitmap. The n_backspaces counter is not touched by the source. -/
def Keyboard.reset (k : Keyboard) : Keyboard :=
  { k with input_queue := [], pending_surrogate := none, pressed := fun _ => false }

/-! ## Driving helpers -/

/-- Feed a list of UTF-16 code units as Input events. The Input branch of
process_evt never inspects the flags, so a fixed flags value is used. -/
def feed_units (k : Keyboard) (us : List Nat) : Keyboard :=
  us.foldl (fun s u => process_evt s (KeyEvent.Input u flags0)) k

/-- UTF-16 encoding of one Unicode scalar: a BMP scalar is its own single code
unit, anything above the BMP is a high/low surrogate pair. -/
def utf16_encode (c : Char) : List Nat :=
  if c.toNat < 0x10000 then
    [c.toNat]
  else
    [0xD800 + (c.toNat - 0x10000) / 0x400, 0xDC00 + (c.toNat - 0x10000) % 0x400]

/-- UTF-16 encoding of a character sequence. -/
def utf16_encode_all (cs : List Char) : List Nat :=
  cs.flatMap utf16_encode

/-- Appending one character to a queue and then trimming: the abstract queue
step used to describe the effect of feeding one pushable character. -/
def push_trim (q : List Char) (c : Char) : List Char :=
  trim (q ++ [c])

/-! ## Specification-side vocabulary for key-press tracking

The spec describes is_key_pressed as reflecting the most recent transition per
key. The following two definitions express that reading: an event affects a key
when it is a KeyUp for that key or a genuine (non auto-repeat) KeyDown for it,
and the state it leaves the key in is down exactly for a KeyDown. -/

/-- Whether an event is a press-state transition for the given key. -/
def affects_key (kc : KeyCode) : KeyEvent → Bool
  | KeyEvent.KeyDown c fl => c.value == kc.value && !fl.was_previous_state_down
  | KeyEvent.KeyUp c _ => c.value == kc.value
  | KeyEvent.Input _ _ => false

/-- The press state a transition event leaves its key in. -/
def transition_sets_down : KeyEvent → Bool
  | KeyEvent.KeyDown _ _ => true
  | KeyEvent.KeyUp _ _ => false
  | KeyEvent.Input _ _ => false

/-! ## Character facts -/

/-- Two characters with the same scalar value are equal. -/
theorem char_eq_of_toNat_eq {c d : Char} (h : c.toNat = d.toNat) : c = d :=
  Char.ext (UInt32.ext h)

/-- Char.ofNat of a valid scalar value has that scalar value. -/
theorem toNat_ofNat_valid {u : Nat} (hv : Nat.isValidChar u) : (Char.ofNat u).toNat = u := by
  have h32 : u < 2 ^ 32 := by
    rcases hv with h | ⟨_, h⟩ <;> omega
  simp [Char.ofNat, hv, Char.ofNatAux, Char.toNat, UInt32.toNat, BitVec.toNat_ofNat,
    Nat.mod_eq_of_lt h32]

/-- The scalar value of a Char is never a surrogate. -/
theorem char_not_surrogate (c : Char) :
    is_high_surrogate c.toNat = false ∧ is_low_surrogate c.toNat = false := by
  have hv : Nat.isValidChar c.toNat := c.valid
  constructor <;>
  · simp only [is_high_surrogate, is_low_surrogate, Bool.and_eq_false_iff,
      decide_eq_false_iff_not, not_le]
    rcases hv with h | ⟨h1, h2⟩ <;> omega

/-- A low surrogate is not a high surrogate. -/
theorem low_not_high {u : Nat} (h : is_low_surrogate u = true) : is_high_surrogate u = false := by
  simp only [is_low_surrogate, Bool.and_eq_true, decide_eq_true_eq] at h
  simp only [is_high_surrogate, Bool.and_eq_false_iff, decide_eq_false_iff_not, not_le]
  omega

/-- A pushable character is not the backspace character. -/
theorem pushable_ne_backspace {c : Char} (h : pushable c = true) : ¬ c = BACKSPACE := by
  intro he
  rw [he] at h
  exact absurd h (by decide)

/-- Characters above the BMP are pushable: they are far outside the control ranges. -/
theorem pushable_of_ge_bmp {c : Char} (h : 0x10000 ≤ c.toNat) : pushable c = true := by
  simp only [pushable, rust_is_control, Bool.not_eq_true', Bool.and_eq_false_iff,
    Bool.or_eq_false_iff, Bool.and_eq_false_iff, decide_eq_false_iff_not, not_le]
  left
  constructor <;> omega

/-! ## decode_utf16 computation lemmas -/

/-- A single non-surrogate unit decodes to its own scalar. -/
theorem decode_single_ok {u : Nat} (h1 : is_high_surrogate u = false)
    (h2 : is_low_surrogate u = false) :
    decode_utf16 [u] = [Except.ok (Char.ofNat u)] := by
  simp [decode_utf16, h1, h2]

/-- A single surrogate unit decodes to an unpaired-surrogate error. -/
theorem decode_single_err {u : Nat}
    (h : is_high_surrogate u = true ∨ is_low_surrogate u = true) :
    decode_utf16 [u] = [Except.error u] := by
  rcases h with h | h
  · simp [decode_utf16, h]
  · simp [decode_utf16, low_not_high h, h]

/-- A high surrogate followed by a low surrogate decodes to the combined scalar. -/
theorem decode_pair_ok {hi lo : Nat} (hh : is_high_surrogate hi = true)
    (hl : is_low_surrogate lo = true) :
    decode_utf16 [hi, lo] = [Except.ok (combine_surrogates hi lo)] := by
  simp [decode_utf16, hh, hl]

/-- A leading low surrogate errors and the second unit is decoded on its own. -/
theorem decode_pair_low_first {u w : Nat} (hu : is_low_surrogate u = true) :
    decode_utf16 [u, w] = Except.error u :: decode_utf16 [w] := by
  simp [decode_utf16, low_not_high hu, hu]

/-- A high surrogate followed by a unit that is not a low surrogate errors on the
first unit and decodes the second on its own. -/
theorem decode_pair_high_unpaired {u w : Nat} (hu : is_high_surrogate u = true)
    (hw : is_low_surrogate w = false) :
    decode_utf16 [u, w] = Except.error u :: decode_utf16 [w] := by
  conv_lhs => rw [decode_utf16]
  simp [hu, hw]

/-! ## trim and push_trim lemmas -/

/-- The trim loop does nothing below capacity. -/
theorem trim_of_lt {q : List Char} (h : q.length < INPUT_QUEUE_CAPACITY) : trim q = q := by
  cases q with
  | nil => rfl
  | cons c rest =>
    have h' : ¬ INPUT_QUEUE_CAPACITY ≤ (c :: rest).length := by omega
    simp only [trim, if_neg h']

/-- The trim loop at exactly capacity drops one front element. -/
theorem trim_cap {q : List Char} (h : q.length = INPUT_QUEUE_CAPACITY) : trim q = q.tail := by
  cases q with
  | nil => exact absurd h (by decide)
  | cons c rest =>
    have h' : INPUT_QUEUE_CAPACITY ≤ (c :: rest).length := by omega
    simp only [trim, if_pos h', List.tail_cons]
    apply trim_of_lt
    simp only [List.length_cons] at h
    omega

/-- Appending then trimming keeps the most recent 31 characters, expressed as a
drop of the overflow from the front. -/
theorem push_trim_eq {q : List Char} (c : Char) (h : q.length ≤ 31) :
    push_trim q c = (q ++ [c]).drop ((q ++ [c]).length - 31) := by
  have hlen : (q ++ [c]).length = q.length + 1 := by simp
  rcases Nat.lt_or_ge q.length 31 with h1 | h1
  · have h0 : (q ++ [c]).length - 31 = 0 := by omega
    rw [push_trim, trim_of_lt (by rw [hlen]; simp only [INPUT_QUEUE_CAPACITY]; omega), h0,
      List.drop_zero]
  · have h31 : q.length = 31 := Nat.le_antisymm h h1
    have hc : (q ++ [c]).length = INPUT_QUEUE_CAPACITY := by
      simp only [INPUT_QUEUE_CAPACITY]
      omega
    have h1' : (q ++ [c]).length - 31 = 1 := by omega
    rw [push_trim, trim_cap hc, h1', List.drop_one]

/-- push_trim keeps the queue within 31 characters. -/
theorem push_trim_length {q : List Char} (c : Char) (h : q.length ≤ 31) :
    (push_trim q c).length ≤ 31 := by
  rw [push_trim_eq c h, List.length_drop]
  simp only [List.length_append, List.length_singleton]
  omega

/-- Folding push_trim over a character list keeps exactly the most recent 31
characters of the accumulated sequence, in order. -/
theorem foldl_push_trim (cs : List Char) : ∀ q : List Char, q.length ≤ 31 →
    cs.foldl push_trim q = (q ++ cs).drop ((q ++ cs).length - 31) := by
  induction cs with
  | nil =>
    intro q h
    simp only [List.foldl_nil, List.append_nil, Nat.sub_eq_zero_of_le h, List.drop_zero]
  | cons c cs ih =>
    intro q h
    have hassoc : (q ++ [c]) ++ cs = q ++ c :: cs := by simp
    rw [List.foldl_cons, ih (push_trim q c) (push_trim_length c h), push_trim_eq c h,
      ← List.drop_append_of_le_length (by simp; omega), List.drop_drop, hassoc]
    congr 1
    simp only [List.length_drop, List.length_append, List.length_cons, List.length_nil]
    omega

/-! ## process_char_input computation and frame lemmas -/

/-- apply_char on a pushable character appends it to the queue. -/
theorem apply_char_push (k : Keyboard) {c : Char} (hp : pushable c = true) :
    apply_char k c = { k with input_queue := k.input_queue ++ [c] } := by
  have hb := pushable_ne_backspace hp
  have hc : (rust_is_control c && !rust_is_whitespace c) = false := by
    simp only [pushable, Bool.not_eq_true'] at hp
    simp [hp]
  simp [apply_char, hb, hc]

/-- apply_char never touches the pressed bitmap or the pending surrogate. -/
theorem apply_char_frame (k : Keyboard) (c : Char) :
    (apply_char k c).pressed = k.pressed ∧
      (apply_char k c).pending_surrogate = k.pending_surrogate := by
  simp only [apply_char]
  split
  · split <;> exact ⟨rfl, rfl⟩
  · split <;> exact ⟨rfl, rfl⟩

/-- The character loop never touches the pressed bitmap or the pending surrogate. -/
theorem foldl_apply_char_frame (cs : List Char) : ∀ k : Keyboard,
    (cs.foldl apply_char k).pressed = k.pressed ∧
      (cs.foldl apply_char k).pending_surrogate = k.pending_surrogate := by
  induction cs with
  | nil => intro k; exact ⟨rfl, rfl⟩
  | cons c cs ih =>
    intro k
    rw [List.foldl_cons]
    rcases ih (apply_char k c) with ⟨h1, h2⟩
    rcases apply_char_frame k c with ⟨h3, h4⟩
    exact ⟨h1.trans h3, h2.trans h4⟩

/-- process_char_input never touches the pressed bitmap. -/
theorem process_char_input_pressed (k : Keyboard) (cs : List Char) :
    (process_char_input k cs).pressed = k.pressed :=
  (foldl_apply_char_frame cs k).1

/-- process_char_input never touches the pending surrogate. -/
theorem process_char_input_pending (k : Keyboard) (cs : List Char) :
    (process_char_input k cs).pending_surrogate = k.pending_surrogate :=
  (foldl_apply_char_frame cs k).2

/-- process_char_input of one pushable character appends it and trims. -/
theorem process_char_input_one (k : Keyboard) {c : Char} (hp : pushable c = true) :
    process_char_input k [c] = { k with input_queue := trim (k.input_queue ++ [c]) } := by
  simp [process_char_input, apply_char_push k hp]

/-- process_char_input of two pushable characters appends both and trims. -/
theorem process_char_input_two (k : Keyboard) {c d : Char} (hc : pushable c = true)
    (hd : pushable d = true) :
    process_char_input k [c, d] = { k with input_queue := trim (k.input_queue ++ [c, d]) } := by
  have h1 := apply_char_push k hc
  have h2 := apply_char_push { k with input_queue := k.input_queue ++ [c] } hd
  simp only [process_char_input, List.foldl_cons, List.foldl_nil, h1, h2, List.append_assoc,
    List.singleton_append]

/-! ## process_evt computation lemmas -/

/-- With a pending surrogate, an Input event pairs it with the new unit. -/
theorem input_of_pending {k : Keyboard} {hi : Nat} (w : Nat) (fl : KeystrokeFlags)
    (hp : k.pending_surrogate = some hi) :
    process_evt k (KeyEvent.Input w fl) =
      process_char_input { k with pending_surrogate := none }
        ((decode_utf16 [hi, w]).map fun r =>
          match r with
          | Except.ok c => c
          | Except.error _ => REPLACEMENT_CHARACTER) := by
  simp [process_evt, hp]

/-- With no pending surrogate, an Input event carrying any unpaired surrogate
unit parks it in pending_surrogate and changes nothing else. -/
theorem input_park {k : Keyboard} {w : Nat} (fl : KeystrokeFlags)
    (hp : k.pending_surrogate = none)
    (hs : is_high_surrogate w = true ∨ is_low_surrogate w = true) :
    process_evt k (KeyEvent.Input w fl) = { k with pending_surrogate := some w } := by
  simp [process_evt, hp, decode_single_err hs]

/-- With no pending surrogate, an Input event carrying a non-surrogate unit
feeds its character into character processing. -/
theorem input_char {k : Keyboard} {u : Nat} (fl : KeystrokeFlags)
    (hp : k.pending_surrogate = none) (h1 : is_high_surrogate u = false)
    (h2 : is_low_surrogate u = false) :
    process_evt k (KeyEvent.Input u fl) = process_char_input k [Char.ofNat u] := by
  simp [process_evt, hp, decode_single_ok h1 h2]

/-- Input events never touch the pressed bitmap. -/
theorem input_pressed_frame (k : Keyboard) (w : Nat) (fl : KeystrokeFlags) :
    (process_evt k (KeyEvent.Input w fl)).pressed = k.pressed := by
  rcases hp : k.pending_surrogate with _ | hi
  · simp only [process_evt, hp]
    rcases hdec : decode_utf16 [w] with _ | ⟨r, rest⟩
    · rfl
    · rcases r with u | c
      · rfl
      · exact process_char_input_pressed k [c]
  · rw [input_of_pending w fl hp]
    exact process_char_input_pressed _ _

/-- Key transition events never touch the text-input fields. -/
theorem transition_text_frame (k : Keyboard) {e : KeyEvent} (he : is_key_transition e = true) :
    (process_evt k e).input_queue = k.input_queue ∧
      (process_evt k e).n_backspaces = k.n_backspaces ∧
      (process_evt k e).pending_surrogate = k.pending_surrogate := by
  cases e with
  | KeyDown kc fl =>
    simp only [process_evt]
    split <;> exact ⟨rfl, rfl, rfl⟩
  | KeyUp kc fl => exact ⟨rfl, rfl, rfl⟩
  | Input w fl => simp [is_key_transition] at he

/-- A run of key transition events leaves all text-input fields unchanged. -/
theorem fold_transition_text_frame (evs : List KeyEvent) : ∀ k : Keyboard,
    (∀ e ∈ evs, is_key_transition e = true) →
    (evs.foldl process_evt k).input_queue = k.input_queue ∧
      (evs.foldl process_evt k).n_backspaces = k.n_backspaces ∧
      (evs.foldl process_evt k).pending_surrogate = k.pending_surrogate := by
  induction evs with
  | nil => intro k _; exact ⟨rfl, rfl, rfl⟩
  | cons e evs ih =>
    intro k hall
    rw [List.foldl_cons]
    rcases ih (process_evt k e) (fun x hx => hall x (List.mem_cons_of_mem e hx)) with
      ⟨h1, h2, h3⟩
    rcases transition_text_frame k (hall e (List.mem_cons_self e evs)) with ⟨h4, h5, h6⟩
    exact ⟨h1.trans h4, h2.trans h5, h3.trans h6⟩

/-! ## Bitfield arithmetic for the KeystrokeFlags decode -/

/-- The sequential MSB-first bit read equals the arithmetic bit-slice of the
32-bit word: reading n bits at stream position pos yields bits
31 - pos down to 32 - pos - n. -/
theorem readBits_eq (v : Nat) : ∀ (pos n : Nat), pos + n ≤ 32 →
    readBits v pos n = v / 2 ^ (32 - pos - n) % 2 ^ n := by
  intro pos n
  induction n with
  | zero => intro _; simp [readBits, Nat.mod_one]
  | succ n ih =>
    intro h
    rw [readBits, ih (by omega)]
    have h1 : 32 - pos - n = (32 - pos - (n + 1)) + 1 := by omega
    have h2 : 31 - (pos + n) = 32 - pos - (n + 1) := by omega
    rw [h1, h2]
    have hb : (if v.testBit (32 - pos - (n + 1)) then 1 else 0)
        = v / 2 ^ (32 - pos - (n + 1)) % 2 := by
      rw [Nat.testBit_to_div_mod]
      rcases Nat.mod_two_eq_zero_or_one (v / 2 ^ (32 - pos - (n + 1))) with hz | hz <;>
        simp [hz]
    rw [hb]
    have hdd : v / 2 ^ ((32 - pos - (n + 1)) + 1) = v / 2 ^ (32 - pos - (n + 1)) / 2 := by
      rw [Nat.div_div_eq_div_mul, pow_succ]
    rw [hdd]
    generalize v / 2 ^ (32 - pos - (n + 1)) = w
    rw [pow_succ, mul_comm (2 ^ n) 2, Nat.mod_mul]
    exact Nat.add_comm _ _

/-- A decidable equality test against 1 agrees with the propositional decide. -/
theorem beq_one_eq_decide (a : Nat) : (a == 1) = decide (a = 1) := by
  by_cases h : a = 1 <;> simp [h]

/-! ## Key-press tracking resolves to the most recent relevant transition -/

/-- is_key_pressed after a fold of events equals the state set by the most
recent event affecting the key, defaulting to the initial state. -/
theorem pressed_fold (evs : List KeyEvent) : ∀ (k0 : Keyboard) (kc : KeyCode),
    is_key_pressed (evs.foldl process_evt k0) kc =
      ((evs.reverse.find? (affects_key kc)).map transition_sets_down).getD
        (is_key_pressed k0 kc) := by
  induction evs with
  | nil => intro k0 kc; rfl
  | cons e evs ih =>
    intro k0 kc
    rw [List.foldl_cons, ih (process_evt k0 e) kc, List.reverse_cons, List.find?_append]
    rcases hA : evs.reverse.find? (affects_key kc) with _ | a
    · simp only [Option.none_or, Option.map_none, Option.getD_none]
      rw [List.find?_singleton]
      by_cases haff : affects_key kc e = true
      · simp only [haff, if_pos, Option.map_some, Option.getD_some]
        cases e with
        | KeyDown c fl =>
          simp only [affects_key, Bool.and_eq_true, beq_iff_eq, Bool.not_eq_true'] at haff
          rcases haff with ⟨hv, hw⟩
          simp [process_evt, is_key_pressed, set_pressed, hw, hv, transition_sets_down]
        | KeyUp c fl =>
          simp only [affects_key, beq_iff_eq] at haff
          simp [process_evt, is_key_pressed, set_pressed, haff, transition_sets_down]
        | Input w fl => simp [affects_key] at haff
      · simp only [Bool.not_eq_true] at haff
        simp only [haff, Bool.false_eq_true, if_false, Option.map_none, Option.getD_none]
        cases e with
        | KeyDown c fl =>
          simp only [affects_key, Bool.and_eq_false_iff, beq_eq_false_iff_ne, ne_eq,
            Bool.not_eq_false] at haff
          rcases haff with hv | hw
          · have hv' : ¬ kc.value = c.value := fun hx => hv hx.symm
            simp only [process_evt, is_key_pressed]
            split
            · simp [set_pressed, hv']
            · rfl
          · simp [process_evt, is_key_pressed, hw]
        | KeyUp c fl =>
          simp only [affects_key, beq_eq_false_iff_ne, ne_eq] at haff
          have haff' : ¬ kc.value = c.value := fun hx => haff hx.symm
          simp [process_evt, is_key_pressed, set_pressed, haff']
        | Input w fl =>
          simp only [is_key_pressed, input_pressed_frame]
    · simp [hA]

/-! ## Surrogate combination facts -/

/-- The scalar value of a combined surrogate pair. -/
theorem combine_toNat {hi lo : Nat} (hh : is_high_surrogate hi = true)
    (hl : is_low_surrogate lo = true) :
    (combine_surrogates hi lo).toNat = 0x10000 + (hi - 0xD800) * 0x400 + (lo - 0xDC00) := by
  simp only [is_high_surrogate, is_low_surrogate, Bool.and_eq_true, decide_eq_true_eq] at hh hl
  apply toNat_ofNat_valid
  right
  constructor <;> omega

/-- A combined surrogate pair is above the BMP, hence pushable. -/
theorem combine_pushable {hi lo : Nat} (hh : is_high_surrogate hi = true)
    (hl : is_low_surrogate lo = true) :
    pushable (combine_surrogates hi lo) = true := by
  apply pushable_of_ge_bmp
  rw [combine_toNat hh hl]
  omega

/-! ## Feeding whole characters through the UTF-16 event interface -/

/-- Printable ASCII characters are pushable. -/
theorem pushable_printable {u : Nat} (h1 : 0x20 ≤ u) (h2 : u ≤ 0x7E) :
    pushable (Char.ofNat u) = true := by
  have hv : Nat.isValidChar u := Or.inl (by omega)
  have ht := toNat_ofNat_valid hv
  simp only [pushable, rust_is_control, ht, Bool.not_eq_true', Bool.and_eq_false_iff,
    Bool.or_eq_false_iff, decide_eq_false_iff_not, not_le]
  left
  omega

/-- UTF-16 encoding of a printable-ASCII character list is the code unit list
itself. -/
theorem utf16_encode_all_ascii (us : List Nat) (h : ∀ u ∈ us, 0x20 ≤ u ∧ u ≤ 0x7E) :
    utf16_encode_all (us.map Char.ofNat) = us := by
  induction us with
  | nil => rfl
  | cons u us ih =>
    rcases h u (List.mem_cons_self u us) with ⟨h1, h2⟩
    have hv : Nat.isValidChar u := Or.inl (by omega)
    have ht := toNat_ofNat_valid hv
    have henc1 : utf16_encode (Char.ofNat u) = [u] := by
      simp only [utf16_encode, ht, if_pos (by omega : u < 0x10000)]
    have hcons : utf16_encode_all (Char.ofNat u :: us.map Char.ofNat)
        = utf16_encode (Char.ofNat u) ++ utf16_encode_all (us.map Char.ofNat) := by
      simp [utf16_encode_all]
    rw [List.map_cons, hcons, henc1, ih (fun x hx => h x (List.mem_cons_of_mem u hx))]
    rfl

/-- Feeding the UTF-16 encoding of one pushable character from a state with no
pending surrogate appends the character to the queue (and trims); for a
character above the BMP this takes the high-surrogate parking transition
followed by the pair commit. -/
theorem feed_encode_one {k : Keyboard} {c : Char} (hp : pushable c = true)
    (hpend : k.pending_surrogate = none) :
    feed_units k (utf16_encode c) = { k with input_queue := push_trim k.input_queue c } := by
  rcases Nat.lt_or_ge c.toNat 0x10000 with hbmp | hsup
  · have henc : utf16_encode c = [c.toNat] := by
      simp only [utf16_encode, if_pos hbmp]
    have hns := char_not_surrogate c
    have hofn : Char.ofNat c.toNat = c :=
      char_eq_of_toNat_eq (toNat_ofNat_valid c.valid)
    rw [henc]
    simp only [feed_units, List.foldl_cons, List.foldl_nil]
    rw [input_char flags0 hpend hns.1 hns.2, hofn, process_char_input_one k hp]
    rfl
  · have hval : c.toNat < 0x110000 := by
      rcases (c.valid : Nat.isValidChar c.toNat) with hx | ⟨hx1, hx2⟩
      · exact hx.trans (by norm_num)
      · exact hx2
    have hh : is_high_surrogate (0xD800 + (c.toNat - 0x10000) / 0x400) = true := by
      simp only [is_high_surrogate, Bool.and_eq_true, decide_eq_true_eq]
      omega
    have hl : is_low_surrogate (0xDC00 + (c.toNat - 0x10000) % 0x400) = true := by
      simp only [is_low_surrogate, Bool.and_eq_true, decide_eq_true_eq]
      omega
    have henc : utf16_encode c =
        [0xD800 + (c.toNat - 0x10000) / 0x400, 0xDC00 + (c.toNat - 0x10000) % 0x400] := by
      simp only [utf16_encode, if_neg (by omega : ¬ c.toNat < 0x10000)]
    have hcomb : combine_surrogates (0xD800 + (c.toNat - 0x10000) / 0x400)
        (0xDC00 + (c.toNat - 0x10000) % 0x400) = c := by
      apply char_eq_of_toNat_eq
      rw [combine_toNat hh hl]
      omega
    rw [henc, feed_units, List.foldl_cons, List.foldl_cons, List.foldl_nil]
    rw [input_park flags0 hpend (Or.inl hh), input_of_pending _ flags0 rfl,
      decode_pair_ok hh hl]
    simp only [List.map_cons, List.map_nil]
    rw [hcomb, process_char_input_one _ hp]
    cases k with
    | mk pr q nb ps =>
      simp only at hpend
      rw [hpend]
      rfl

/-- Feeding the UTF-16 encoding of a pushable character sequence from a state
with no pending surrogate folds push_trim over the characters. -/
theorem feed_pushables (cs : List Char) : ∀ k : Keyboard,
    (∀ c ∈ cs, pushable c = true) → k.pending_surrogate = none →
    feed_units k (utf16_encode_all cs)
      = { k with input_queue := cs.foldl push_trim k.input_queue } := by
  induction cs with
  | nil => intro k _ _; rfl
  | cons c cs ih =>
    intro k hall hpend
    have henc : utf16_encode_all (c :: cs) = utf16_encode c ++ utf16_encode_all cs := by
      simp [utf16_encode_all]
    have hfa : feed_units k (utf16_encode c ++ utf16_encode_all cs)
        = feed_units (feed_units k (utf16_encode c)) (utf16_encode_all cs) := by
      simp [feed_units, List.foldl_append]
    rw [henc, hfa, feed_encode_one (hall c (List.mem_cons_self c cs)) hpend,
      ih { k with input_queue := push_trim k.input_queue c }
        (fun x hx => hall x (List.mem_cons_of_mem c hx)) hpend]
    simp only [List.foldl_cons]

/-! ## Claim theorems -/

/-- C9: Decoding KeystrokeFlags from a 32-bit value is a pure, total function
(from_raw is a total Lean function over the raw word), and for every input the
fields equal the fixed bit layout: is_key_release = bit 31,
was_previous_state_down = bit 30, is_alt_pressed = bit 29, is_extended_key =
bit 24, scan_code = bits 16 to 23, repeat_count = bits 0 to 15, with bits 25 to
28 ignored (the field equations mention no other bits). -/
theorem C9_keystroke_flags_layout (v : Nat) :
    (KeystrokeFlags.from_raw v).is_key_release = v.testBit 31 ∧
    (KeystrokeFlags.from_raw v).was_previous_state_down = v.testBit 30 ∧
    (KeystrokeFlags.from_raw v).is_alt_pressed = v.testBit 29 ∧
    (KeystrokeFlags.from_raw v).is_extended_key = v.testBit 24 ∧
    (KeystrokeFlags.from_raw v).scan_code = v / 2 ^ 16 % 2 ^ 8 ∧
    (KeystrokeFlags.from_raw v).repeat_count = v % 2 ^ 16 := by
  have h0 : readBits v 0 1 = v / 2 ^ 31 % 2 := by
    rw [readBits_eq v 0 1 (by omega)]; all_goals norm_num
  have h1 : readBits v 1 1 = v / 2 ^ 30 % 2 := by
    rw [readBits_eq v 1 1 (by omega)]; all_goals norm_num
  have h2 : readBits v 2 1 = v / 2 ^ 29 % 2 := by
    rw [readBits_eq v 2 1 (by omega)]; all_goals norm_num
  have h7 : readBits v 7 1 = v / 2 ^ 24 % 2 := by
    rw [readBits_eq v 7 1 (by omega)]; all_goals norm_num
  have hsc : readBits v 8 8 = v / 2 ^ 16 % 2 ^ 8 := by
    rw [readBits_eq v 8 8 (by omega)]
  have hrc : readBits v 16 16 = v % 2 ^ 16 := by
    rw [readBits_eq v 16 16 (by omega)]; all_goals norm_num
  refine ⟨?_, ?_, ?_, ?_, ?_, ?_⟩ <;> simp only [KeystrokeFlags.from_raw]
  · rw [h0, beq_one_eq_decide, Nat.testBit_to_div_mod]
  · rw [h1, beq_one_eq_decide, Nat.testBit_to_div_mod]
  · rw [h2, beq_one_eq_decide, Nat.testBit_to_div_mod]
  · rw [h7, beq_one_eq_decide, Nat.testBit_to_div_mod]
  · exact hsc
  · exact hrc

/-- C1: For every sequence of KeyDown/KeyUp events processed by process_evt,
is_key_pressed afterwards reflects the most recent transition for the key: the
key is reported pressed exactly when the most recent event affecting it is a
KeyDown (a KeyDown with was_previous_state_down false sets the bit, a KeyUp
unconditionally clears it, and an auto-repeat KeyDown affects no key, so it
never changes any press state), defaulting to not-pressed. -/
theorem C1_key_press_last_transition (evs : List KeyEvent) (kc : KeyCode)
    (_hall : ∀ e ∈ evs, is_key_transition e = true) :
    is_key_pressed (evs.foldl process_evt Keyboard.new) kc =
      ((evs.reverse.find? (affects_key kc)).map transition_sets_down).getD false := by
  rw [pressed_fold]
  rfl

/-- Witness for C1: a genuine KeyDown for key 0x41 followed by an auto-repeat
KeyDown for it; the most recent affecting event is the genuine KeyDown, so the
key reads as pressed. -/
theorem C1_key_press_last_transition_witness :
    (∀ e ∈ [KeyEvent.KeyDown ⟨0x41, by decide⟩ flags0,
            KeyEvent.KeyDown ⟨0x41, by decide⟩ (KeystrokeFlags.from_raw 0x40000001)],
        is_key_transition e = true) ∧
    is_key_pressed
        ([KeyEvent.KeyDown ⟨0x41, by decide⟩ flags0,
          KeyEvent.KeyDown ⟨0x41, by decide⟩ (KeystrokeFlags.from_raw 0x40000001)].foldl
          process_evt Keyboard.new) ⟨0x41, by decide⟩ =
      ((([KeyEvent.KeyDown ⟨0x41, by decide⟩ flags0,
          KeyEvent.KeyDown ⟨0x41, by decide⟩
            (KeystrokeFlags.from_raw 0x40000001)].reverse.find?
            (affects_key ⟨0x41, by decide⟩)).map transition_sets_down).getD false) :=
  ⟨by decide, C1_key_press_last_transition _ _ (by decide)⟩

/-- C8 counterexample: from the reachable state obtained by one backspace Input
event on a fresh keyboard (n_backspaces = 1), reset leaves the backspace count
in place, so the subsequent drain_input returns backspace count 1, not the
claimed zero-backspace baseline. -/
theorem C8_reset_counterexample :
    (drain_input (Keyboard.reset (process_evt Keyboard.new (KeyEvent.Input 8 flags0)))).1
        = (1, []) ∧
    (drain_input (Keyboard.reset (process_evt Keyboard.new (KeyEvent.Input 8 flags0)))).1
        ≠ (0, []) := by
  decide

/-- C8 amended: reset restores the empty/false baseline for the pressed bitmap,
the pending surrogate and the input queue — afterwards is_key_pressed is false
for every key and a subsequent drain_input returns an empty character sequence —
but n_backspaces is preserved, so that drain returns the pre-reset backspace
count (zero only if it was already zero). -/
theorem C8_reset_baseline (k : Keyboard) (kc : KeyCode) :
    is_key_pressed (Keyboard.reset k) kc = false ∧
    (Keyboard.reset k).pending_surrogate = none ∧
    (drain_input (Keyboard.reset k)).1 = (k.n_backspaces, []) :=
  ⟨rfl, rfl, rfl⟩

/-- C10: frame property of process_evt: any run of KeyDown/KeyUp events leaves
input_queue, n_backspaces and pending_surrogate unchanged (only the pressed
bitmap can change); any Input event leaves the pressed bitmap unchanged; and a
pending high surrogate survives any number of interleaved key-transition events
and still pairs with the next Input code unit, committing the combined scalar
on top of the untouched queue. -/
theorem C10_process_evt_frame (k : Keyboard) (evs : List KeyEvent)
    (hall : ∀ e ∈ evs, is_key_transition e = true) :
    ((evs.foldl process_evt k).input_queue = k.input_queue ∧
      (evs.foldl process_evt k).n_backspaces = k.n_backspaces ∧
      (evs.foldl process_evt k).pending_surrogate = k.pending_surrogate) ∧
    (∀ (w : Nat) (fl : KeystrokeFlags),
      (process_evt k (KeyEvent.Input w fl)).pressed = k.pressed) ∧
    (∀ (hi lo : Nat) (fl : KeystrokeFlags), k.pending_surrogate = some hi →
      is_high_surrogate hi = true → is_low_surrogate lo = true →
      (process_evt (evs.foldl process_evt k) (KeyEvent.Input lo fl)).input_queue
        = trim (k.input_queue ++ [combine_surrogates hi lo])) := by
  refine ⟨fold_transition_text_frame evs k hall, fun w fl => input_pressed_frame k w fl, ?_⟩
  intro hi lo fl hp hh hl
  rcases fold_transition_text_frame evs k hall with ⟨hq, _, hps⟩
  rw [input_of_pending lo fl (hps.trans hp), decode_pair_ok hh hl]
  simp only [List.map_cons, List.map_nil]
  rw [process_char_input_one _ (combine_pushable hh hl)]
  simp only [hq]

/-- Witness for C10: a pending high surrogate (from Input 0xD834 on a fresh
keyboard) survives an interleaved KeyDown and then pairs with the low surrogate
0xDD1E, committing the combined scalar. -/
theorem C10_process_evt_frame_witness :
    (∀ e ∈ [KeyEvent.KeyDown ⟨0x41, by decide⟩ flags0], is_key_transition e = true) ∧
    (process_evt
        ([KeyEvent.KeyDown ⟨0x41, by decide⟩ flags0].foldl process_evt
          (process_evt Keyboard.new (KeyEvent.Input 0xD834 flags0)))
        (KeyEvent.Input 0xDD1E flags0)).input_queue
      = trim ((process_evt Keyboard.new (KeyEvent.Input 0xD834 flags0)).input_queue
          ++ [combine_surrogates 0xD834 0xDD1E]) :=
  ⟨by decide,
    (C10_process_evt_frame (process_evt Keyboard.new (KeyEvent.Input 0xD834 flags0))
        [KeyEvent.KeyDown ⟨0x41, by decide⟩ flags0] (by decide)).2.2
      0xD834 0xDD1E flags0 (by decide) (by decide) (by decide)⟩

/-- C2: For every Keyboard state (with no pending surrogate and a queue within
capacity, as in every reachable state), an Input event whose resolved character
is backspace removes the most recently queued character when the queue is non
empty, and otherwise increments n_backspaces by one without touching the queue;
and the event sequence backspace, backspace, a, b, backspace, c on a fresh
keyboard drains to backspace count 2 and text "ac". -/
theorem C2_backspace_processing (k : Keyboard) (fl : KeystrokeFlags)
    (hpend : k.pending_surrogate = none)
    (hlen : k.input_queue.length < INPUT_QUEUE_CAPACITY) :
    (k.input_queue = [] →
      process_evt k (KeyEvent.Input 8 fl) = { k with n_backspaces := k.n_backspaces + 1 }) ∧
    (k.input_queue ≠ [] →
      process_evt k (KeyEvent.Input 8 fl) = { k with input_queue := k.input_queue.dropLast }) ∧
    (drain_input (feed_units Keyboard.new [8, 8, 0x61, 0x62, 8, 0x63])).1
      = (2, [Char.ofNat 0x61, Char.ofNat 0x63]) := by
  have h8 : process_evt k (KeyEvent.Input 8 fl) = process_char_input k [BACKSPACE] := by
    rw [input_char fl hpend (by decide) (by decide)]
    rfl
  refine ⟨?_, ?_, by decide⟩
  · intro hq
    rw [h8]
    simp [process_char_input, apply_char, hq, trim]
  · intro hq
    rw [h8]
    have hie : k.input_queue.isEmpty = false := by
      cases hie2 : k.input_queue.isEmpty
      · rfl
      · exact absurd (List.isEmpty_iff.mp hie2) hq
    have htr : trim k.input_queue.dropLast = k.input_queue.dropLast :=
      trim_of_lt (by rw [List.length_dropLast]; omega)
    simp [process_char_input, apply_char, hie, htr]

/-- Witness for C2: a fresh keyboard has no pending surrogate and an in-capacity
queue, and a backspace Input event on it increments the backspace counter. -/
theorem C2_backspace_processing_witness :
    Keyboard.new.pending_surrogate = none ∧
    Keyboard.new.input_queue.length < INPUT_QUEUE_CAPACITY ∧
    process_evt Keyboard.new (KeyEvent.Input 8 flags0)
      = { Keyboard.new with n_backspaces := Keyboard.new.n_backspaces + 1 } :=
  ⟨rfl, by decide, (C2_backspace_processing Keyboard.new flags0 rfl (by decide)).1 rfl⟩

/-- C3 counterexample: feeding 32 printable-ASCII Input events does not drain to
exactly that string: the trim loop leaves only the most recent 31 characters,
refuting the parenthetical of the claim for sequences at or above capacity. -/
theorem C3_drain_counterexample :
    (drain_input (feed_units Keyboard.new (List.replicate 32 0x61))).1.2
        ≠ List.replicate 32 (Char.ofNat 0x61) ∧
    (drain_input (feed_units Keyboard.new (List.replicate 32 0x61))).1.2
        = List.replicate 31 (Char.ofNat 0x61) := by
  decide

/-- C3 (amended): drain_input returns the current n_backspaces and all queued
characters in arrival order and resets both, so that an immediately following
drain_input returns zero backspaces and an empty character sequence; a fresh
keyboard fed fewer than INPUT_QUEUE_CAPACITY printable-ASCII Input events
drains to exactly that character sequence in order. -/
theorem C3_drain_semantics (k : Keyboard) :
    (drain_input k).1 = (k.n_backspaces, k.input_queue) ∧
    (drain_input ((drain_input k).2)).1 = (0, []) ∧
    (∀ us : List Nat, (∀ u ∈ us, 0x20 ≤ u ∧ u ≤ 0x7E) →
      us.length < INPUT_QUEUE_CAPACITY →
      (drain_input (feed_units Keyboard.new us)).1 = (0, us.map Char.ofNat)) := by
  refine ⟨rfl, rfl, ?_⟩
  intro us hascii hlen
  have hpush : ∀ c ∈ us.map Char.ofNat, pushable c = true := by
    intro c hc
    rcases List.mem_map.mp hc with ⟨u, hu, rfl⟩
    rcases hascii u hu with ⟨h1, h2⟩
    exact pushable_printable h1 h2
  have hfeed := feed_pushables (us.map Char.ofNat) Keyboard.new hpush rfl
  rw [utf16_encode_all_ascii us hascii] at hfeed
  rw [hfeed]
  have hq := foldl_push_trim (us.map Char.ofNat) [] (by simp)
  simp only [List.nil_append] at hq
  have hlen2 : (us.map Char.ofNat).length - 31 = 0 := by
    simp only [List.length_map]
    simp only [INPUT_QUEUE_CAPACITY] at hlen
    omega
  rw [show Keyboard.new.input_queue = ([] : List Char) from rfl] at hfeed ⊢
  simp only [drain_input]
  rw [hq, hlen2, List.drop_zero]
  rfl

/-- Witness for C3: feeding the two printable-ASCII units 0x68 and 0x69 drains
to exactly those two characters with zero backspaces. -/
theorem C3_drain_semantics_witness :
    (∀ u ∈ [0x68, 0x69], 0x20 ≤ u ∧ u ≤ 0x7E) ∧
    ([0x68, 0x69] : List Nat).length < INPUT_QUEUE_CAPACITY ∧
    (drain_input (feed_units Keyboard.new [0x68, 0x69])).1
      = (0, [0x68, 0x69].map Char.ofNat) :=
  ⟨by decide, by decide,
    (C3_drain_semantics Keyboard.new).2.2 [0x68, 0x69] (by decide) (by decide)⟩

/-- C4: For every Keyboard with no pending surrogate, an Input event carrying an
unpaired high surrogate stores it in pending_surrogate and adds nothing to the
input queue or the backspace count (on an empty queue, a drain at that point
yields no characters), and processing the matching low surrogate next clears the
pending slot and commits exactly the single combined scalar of the pair (on an
empty queue, a drain then yields exactly that scalar). -/
theorem C4_surrogate_pair_commit (k : Keyboard) (hi lo : Nat) (fl fl2 : KeystrokeFlags)
    (hpend : k.pending_surrogate = none) (hh : is_high_surrogate hi = true)
    (hl : is_low_surrogate lo = true) :
    ((process_evt k (KeyEvent.Input hi fl)).pending_surrogate = some hi ∧
      (process_evt k (KeyEvent.Input hi fl)).input_queue = k.input_queue ∧
      (process_evt k (KeyEvent.Input hi fl)).n_backspaces = k.n_backspaces) ∧
    ((process_evt (process_evt k (KeyEvent.Input hi fl))
        (KeyEvent.Input lo fl2)).pending_surrogate = none ∧
      (process_evt (process_evt k (KeyEvent.Input hi fl))
        (KeyEvent.Input lo fl2)).input_queue
        = trim (k.input_queue ++ [combine_surrogates hi lo])) ∧
    (k.input_queue = [] →
      (drain_input (process_evt k (KeyEvent.Input hi fl))).1.2 = [] ∧
      (drain_input (process_evt (process_evt k (KeyEvent.Input hi fl))
          (KeyEvent.Input lo fl2))).1.2 = [combine_surrogates hi lo]) := by
  rw [input_park fl hpend (Or.inl hh), input_of_pending lo fl2 rfl, decode_pair_ok hh hl]
  simp only [List.map_cons, List.map_nil]
  rw [process_char_input_one _ (combine_pushable hh hl)]
  refine ⟨⟨by trivial, by trivial, by trivial⟩, ⟨by trivial, by trivial⟩, ?_⟩
  intro hq
  refine ⟨hq, ?_⟩
  show trim (k.input_queue ++ [combine_surrogates hi lo]) = [combine_surrogates hi lo]
  rw [hq, List.nil_append, trim_of_lt (by simp [INPUT_QUEUE_CAPACITY])]

/-- Witness for C4: the pair 0xD834, 0xDD1E on a fresh keyboard drains to the
single scalar U+1D11E after the low surrogate arrives. -/
theorem C4_surrogate_pair_commit_witness :
    Keyboard.new.pending_surrogate = none ∧
    is_high_surrogate 0xD834 = true ∧ is_low_surrogate 0xDD1E = true ∧
    (drain_input (process_evt (process_evt Keyboard.new (KeyEvent.Input 0xD834 flags0))
        (KeyEvent.Input 0xDD1E flags0))).1.2 = [combine_surrogates 0xD834 0xDD1E] :=
  ⟨rfl, by decide, by decide,
    ((C4_surrogate_pair_commit Keyboard.new 0xD834 0xDD1E flags0 flags0 rfl (by decide)
      (by decide)).2.2 rfl).2⟩

/-- C5 counterexample: an Input event carrying the lone low surrogate 0xDD1E on
a fresh keyboard parks it in pending_surrogate; a drain at that point yields no
characters, not the replacement character the claim requires. -/
theorem C5_lone_low_counterexample :
    (process_evt Keyboard.new (KeyEvent.Input 0xDD1E flags0)).pending_surrogate
        = some 0xDD1E ∧
    (drain_input (process_evt Keyboard.new (KeyEvent.Input 0xDD1E flags0))).1.2 = [] ∧
    (drain_input (process_evt Keyboard.new (KeyEvent.Input 0xDD1E flags0))).1.2
        ≠ [REPLACEMENT_CHARACTER] := by
  decide

/-- C5 (amended): a lone low surrogate with no pending surrogate is stored in
pending_surrogate and nothing is queued, so a drain at that point yields
nothing new; when a following non-surrogate, non-control code unit arrives, the
failed pairing resolves to the replacement character followed by that unit's
character, both appended to the queue. -/
theorem C5_lone_low_surrogate (k : Keyboard) (w : Nat) (fl : KeystrokeFlags)
    (hpend : k.pending_surrogate = none) (hw : is_low_surrogate w = true) :
    ((process_evt k (KeyEvent.Input w fl)).pending_surrogate = some w ∧
      (process_evt k (KeyEvent.Input w fl)).input_queue = k.input_queue ∧
      (process_evt k (KeyEvent.Input w fl)).n_backspaces = k.n_backspaces) ∧
    (∀ (u : Nat) (fl2 : KeystrokeFlags), is_high_surrogate u = false →
      is_low_surrogate u = false → pushable (Char.ofNat u) = true →
      (process_evt (process_evt k (KeyEvent.Input w fl))
          (KeyEvent.Input u fl2)).pending_surrogate = none ∧
      (process_evt (process_evt k (KeyEvent.Input w fl))
          (KeyEvent.Input u fl2)).input_queue
          = trim (k.input_queue ++ [REPLACEMENT_CHARACTER, Char.ofNat u])) := by
  rw [input_park fl hpend (Or.inr hw)]
  refine ⟨⟨rfl, rfl, rfl⟩, ?_⟩
  intro u fl2 hu1 hu2 hup
  rw [input_of_pending u fl2 rfl, decode_pair_low_first hw, decode_single_ok hu1 hu2]
  simp only [List.map_cons, List.map_nil]
  rw [process_char_input_two _ (by decide : pushable REPLACEMENT_CHARACTER = true) hup]
  exact ⟨rfl, rfl⟩

/-- Witness for C5 (amended): the lone low surrogate 0xDD1E followed by the
letter m queues the replacement character and then m. -/
theorem C5_lone_low_surrogate_witness :
    Keyboard.new.pending_surrogate = none ∧ is_low_surrogate 0xDD1E = true ∧
    (process_evt (process_evt Keyboard.new (KeyEvent.Input 0xDD1E flags0))
        (KeyEvent.Input 0x6D flags0)).input_queue
      = trim (Keyboard.new.input_queue ++ [REPLACEMENT_CHARACTER, Char.ofNat 0x6D]) :=
  ⟨rfl, by decide,
    ((C5_lone_low_surrogate Keyboard.new 0xDD1E flags0 rfl (by decide)).2 0x6D flags0
      (by decide) (by decide) (by decide)).2⟩

/-- C6 counterexample: with the high surrogate 0xD834 pending, an Input event
carrying the non-surrogate unit 0x6D feeds two characters — the replacement
character and the letter m — not the single replacement character the claim
requires for an invalid pairing. -/
theorem C6_invalid_pair_counterexample :
    (process_evt (process_evt Keyboard.new (KeyEvent.Input 0xD834 flags0))
        (KeyEvent.Input 0x6D flags0)).input_queue
      = [REPLACEMENT_CHARACTER, Char.ofNat 0x6D] ∧
    (process_evt (process_evt Keyboard.new (KeyEvent.Input 0xD834 flags0))
        (KeyEvent.Input 0x6D flags0)).input_queue ≠ [REPLACEMENT_CHARACTER] := by
  decide

/-- C6 (amended): for every Keyboard whose pending_surrogate is set (it always
holds a surrogate unit), processing any Input event clears pending_surrogate
and never propagates an error: the stored unit and the new unit are decoded
together as UTF-16 — a valid high+low pairing feeds the single combined scalar,
and otherwise each unit that fails to decode is replaced by U+FFFD, so the
replacement for the stored unit may be followed by a second character carrying
the new unit's own decode. -/
theorem C6_pending_pair_resolution (k : Keyboard) (hi w : Nat) (fl : KeystrokeFlags)
    (hpend : k.pending_surrogate = some hi)
    (hsur : is_high_surrogate hi = true ∨ is_low_surrogate hi = true) :
    (process_evt k (KeyEvent.Input w fl)).pending_surrogate = none ∧
    process_evt k (KeyEvent.Input w fl)
      = process_char_input { k with pending_surrogate := none }
          (if is_high_surrogate hi && is_low_surrogate w then
            [combine_surrogates hi w]
          else
            [REPLACEMENT_CHARACTER,
              if is_high_surrogate w || is_low_surrogate w then REPLACEMENT_CHARACTER
              else Char.ofNat w]) := by
  constructor
  · rw [input_of_pending w fl hpend]
    exact process_char_input_pending _ _
  · rw [input_of_pending w fl hpend]
    congr 1
    by_cases hpairv : is_high_surrogate hi = true ∧ is_low_surrogate w = true
    · rcases hpairv with ⟨h1, h2⟩
      rw [decode_pair_ok h1 h2]
      simp [h1, h2]
    · have hcond : (is_high_surrogate hi && is_low_surrogate w) = false := by
        rcases Bool.eq_false_or_eq_true (is_high_surrogate hi) with h | h
        · rcases Bool.eq_false_or_eq_true (is_low_surrogate w) with h2 | h2
          · exact absurd ⟨h, h2⟩ hpairv
          · simp [h2]
        · simp [h]
      simp only [hcond, Bool.false_eq_true, if_false]
      rcases hsur with hhi | hhi
      · have hwl : is_low_surrogate w = false := by
          rcases Bool.eq_false_or_eq_true (is_low_surrogate w) with h | h
          · exact absurd ⟨hhi, h⟩ hpairv
          · exact h
        rw [decode_pair_high_unpaired hhi hwl]
        rcases Bool.eq_false_or_eq_true (is_high_surrogate w) with hwh | hwh
        · rw [decode_single_err (Or.inl hwh)]
          simp [hwh]
        · rw [decode_single_ok hwh hwl]
          simp [hwh, hwl]
      · rw [decode_pair_low_first hhi]
        rcases Bool.eq_false_or_eq_true (is_high_surrogate w) with hwh | hwh
        · rw [decode_single_err (Or.inl hwh)]
          simp [hwh]
        · rcases Bool.eq_false_or_eq_true (is_low_surrogate w) with hwl | hwl
          · rw [decode_single_err (Or.inr hwl)]
            simp [hwl]
          · rw [decode_single_ok hwh hwl]
            simp [hwh, hwl]

/-- Witness for C6 (amended): with 0xD834 pending, the valid low surrogate
0xDD1E clears the pending slot. -/
theorem C6_pending_pair_resolution_witness :
    (process_evt Keyboard.new (KeyEvent.Input 0xD834 flags0)).pending_surrogate
        = some 0xD834 ∧
    (process_evt (process_evt Keyboard.new (KeyEvent.Input 0xD834 flags0))
        (KeyEvent.Input 0xDD1E flags0)).pending_surrogate = none :=
  ⟨by decide,
    (C6_pending_pair_resolution (process_evt Keyboard.new (KeyEvent.Input 0xD834 flags0))
        0xD834 0xDD1E flags0 (by decide) (Or.inl (by decide))).1⟩

/-- C7: Feeding the UTF-16 encoding of more than INPUT_QUEUE_CAPACITY pushable
characters evicts oldest-first, retaining only the most recent
INPUT_QUEUE_CAPACITY - 1 characters in arrival order (expressed for any count
as dropping the overflow from the front), and eviction never splits a
surrogate-pair character: the queue is described in whole Unicode scalars even
when the input contains surrogate pairs, so both units of a pair enter and
leave together. -/
theorem C7_queue_eviction (cs : List Char) (hall : ∀ c ∈ cs, pushable c = true) :
    (feed_units Keyboard.new (utf16_encode_all cs)).input_queue
        = cs.drop (cs.length - (INPUT_QUEUE_CAPACITY - 1)) ∧
    (feed_units Keyboard.new (utf16_encode_all cs)).input_queue.length
        ≤ INPUT_QUEUE_CAPACITY - 1 := by
  rw [feed_pushables cs Keyboard.new hall rfl]
  have h := foldl_push_trim cs [] (by simp)
  simp only [List.nil_append] at h
  constructor
  · exact h
  · show (cs.foldl push_trim Keyboard.new.input_queue).length ≤ INPUT_QUEUE_CAPACITY - 1
    rw [show Keyboard.new.input_queue = ([] : List Char) from rfl, h, List.length_drop]
    simp only [INPUT_QUEUE_CAPACITY]
    omega

/-- Witness for C7: 33 copies of the astral character U+1D11E (each encoded as
a surrogate pair) retain the most recent 31 whole characters. -/
theorem C7_queue_eviction_witness :
    (∀ c ∈ List.replicate 33 (Char.ofNat 0x1D11E), pushable c = true) ∧
    (feed_units Keyboard.new
        (utf16_encode_all (List.replicate 33 (Char.ofNat 0x1D11E)))).input_queue
      = (List.replicate 33 (Char.ofNat 0x1D11E)).drop
          ((List.replicate 33 (Char.ofNat 0x1D11E)).length - (INPUT_QUEUE_CAPACITY - 1)) :=
  ⟨by decide, (C7_queue_eviction (List.replicate 33 (Char.ofNat 0x1D11E)) (by decide)).1⟩

end Skylight
